import Mathlib

/-!
# Verification of the oxide_engine rasterizer core (`src/oxide/src/lib.rs`)

Shallow embedding conventions:

* Rust `f32` values are modelled as exact rationals (`ℚ`).  `f32::MAX` and
  `f32::MIN` are the exact rational values of those constants.
* Rust `u32` values are modelled as `ℕ` together with explicit wrap-around
  (`% 2^32`) where the Rust operation wraps in release builds, and Rust
  `i32` intermediates as `ℤ` with explicit two's-complement wrapping.
* Rust float-to-integer `as` casts saturate (Rust reference semantics):
  they truncate toward zero and clamp to the target range.
* `f32::sqrt` is modelled by `ratSqrt`, an exact floor-square-root on
  rationals (exact on perfect squares, which covers every concrete input
  used below).  `sqrt` of a negative number (`NaN` in `f32`) is modelled
  as `0`; in the one place this matters (`get_bounding_box`), both `NaN`
  roots and the value produced here fail the strict `0 < t < 1` candidate
  filter, so the observable behaviour agrees.
* The pixel buffer is modelled as a rectangular grid of 32-bit colour
  values (`pix : ℕ → ℕ → ℕ`).  `draw_pixel_to_buffer` performs raw
  pointer arithmetic `base + pitch*y + 4*x`; for in-range coordinates
  (out-of-range writes are a documented caller-contract violation) this
  is exactly a write to cell `(x, y)` of the grid.
-/

set_option maxRecDepth 4000

namespace Oxide

/-- Exact value of `f32::MAX` = `(2 - 2⁻²³) · 2¹²⁷` = `2¹²⁸ - 2¹⁰⁴`. -/
def f32MAX : ℚ := 340282346638528859811704183484516925440

/-- Exact value of `f32::MIN` = `-f32::MAX`. -/
def f32MIN : ℚ := -340282346638528859811704183484516925440

/-- `2^32`, the modulus of `u32` arithmetic. -/
def U32MOD : ℕ := 4294967296

/-- Fuel-driven integer floor square root (digit-by-digit recursion on
`n / 4`).  The fuel only bounds the recursion depth; `fuel = n` is always
sufficient since the argument at least halves each step. -/
def isqrtAux : ℕ → ℕ → ℕ
  | 0, _ => 0
  | fuel + 1, n =>
    if n < 2 then n
    else
      let r := 2 * isqrtAux fuel (n / 4)
      if (r + 1) * (r + 1) ≤ n then r + 1 else r

/-- Integer floor square root, kernel-computable. -/
def isqrt (n : ℕ) : ℕ := isqrtAux n n

/-- Model of `f32::sqrt` on the exact-rational model: floor square root
`⌊√(num·den)⌋ / den` (exact whenever the argument is a perfect square of a
rational).  Negative input (`NaN` in `f32`) is mapped to `0`. -/
def ratSqrt (q : ℚ) : ℚ :=
  if q ≤ 0 then 0 else (isqrt (q.num.toNat * q.den) : ℚ) / (q.den : ℚ)

/-- Rust `as u32` cast from `f32`: truncate toward zero, saturating at
`0` and `u32::MAX`. -/
def toU32 (q : ℚ) : ℕ := min (⌊q⌋.toNat) (U32MOD - 1)

/-- Rust `as u8` cast from `f32`: truncate toward zero, saturating at
`0` and `255`. -/
def toU8 (q : ℚ) : ℕ := min (⌊q⌋.toNat) 255

/-- Rust `as u8` cast from `u32` (truncation to the low byte). -/
def u8of (n : ℕ) : ℕ := n % 256

/-- Rust `as i32` cast from `u32` (two's-complement reinterpretation). -/
def i32ofU32 (n : ℕ) : ℤ := if n < 2 ^ 31 then (n : ℤ) else (n : ℤ) - (U32MOD : ℤ)

/-- Wrap an integer into the `i32` range (release-mode wrapping arithmetic). -/
def wrapI32 (z : ℤ) : ℤ := (z + 2 ^ 31) % (U32MOD : ℤ) - 2 ^ 31

/-- `u32` wrapping addition (release mode). -/
def u32add (a b : ℕ) : ℕ := (a + b) % U32MOD

/-- `struct Vector2 { x: f32, y: f32 }` -/
structure Vector2 where
  x : ℚ
  y : ℚ
deriving DecidableEq

/-- `impl Add for Vector2` -/
def vadd (a b : Vector2) : Vector2 := ⟨a.x + b.x, a.y + b.y⟩

/-- `impl Mul<f32> for Vector2` -/
def vmul (a : Vector2) (scalar : ℚ) : Vector2 := ⟨a.x * scalar, a.y * scalar⟩

/-- `struct Vector2u32 { x: u32, y: u32 }` -/
structure Vector2u32 where
  x : ℕ
  y : ℕ
deriving DecidableEq

/-- `Vector2u32::new(value)` -/
def Vector2u32.new (value : ℕ) : Vector2u32 := ⟨value, value⟩

/-- `impl Add<Vector2u32> for Vector2u32`: componentwise `u32` addition
(wrapping in release mode). -/
def Vector2u32.addv (a b : Vector2u32) : Vector2u32 :=
  ⟨u32add a.x b.x, u32add a.y b.y⟩

/-- `impl Sub<Vector2u32> for Vector2u32`:
`max(self.x as i32 - other.x as i32, 0) as u32`, with release-mode
wrapping of the `i32` subtraction. -/
def Vector2u32.subv (a b : Vector2u32) : Vector2u32 :=
  ⟨(max (wrapI32 (i32ofU32 a.x - i32ofU32 b.x)) 0).toNat,
   (max (wrapI32 (i32ofU32 a.y - i32ofU32 b.y)) 0).toNat⟩

/-- `struct Rectangle { x, y, width, height: f32 }` -/
structure Rectangle where
  x : ℚ
  y : ℚ
  width : ℚ
  height : ℚ
deriving DecidableEq

/-- `Rectangle::intersects(&self, other)` (verbatim from the source):
`self.x + self.width >= other.x || self.y + self.height >= other.y`. -/
def Rectangle.intersects (self other : Rectangle) : Bool :=
  decide (self.x + self.width ≥ other.x) || decide (self.y + self.height ≥ other.y)

/-- `struct Camera { x, y, width, height, y_scale: f32 }` -/
structure Camera where
  x : ℚ
  y : ℚ
  width : ℚ
  height : ℚ
  y_scale : ℚ
deriving DecidableEq

/-- `struct BezierCurve { p0..p3: Vector2, bounding_box: Rectangle }` -/
structure BezierCurve where
  p0 : Vector2
  p1 : Vector2
  p2 : Vector2
  p3 : Vector2
  bounding_box : Rectangle
deriving DecidableEq

/-- `BezierCurve::evaluate(t)` (verbatim polynomial, including the
`-t * -t * -t` spelling of `-t³`). -/
def BezierCurve.evaluate (self : BezierCurve) (t : ℚ) : Vector2 :=
  vadd (vadd (vadd
    (vmul self.p0 (-t * -t * -t + 3 * t * t - 3 * t + 1))
    (vmul self.p1 (3 * t * t * t - 6 * t * t + 3 * t)))
    (vmul self.p2 (-3 * t * t * t + 3 * t * t)))
    (vmul self.p3 (t * t * t))

/-- `BezierCurve::derivative(t)` -/
def BezierCurve.derivative (self : BezierCurve) (t : ℚ) : Vector2 :=
  vadd (vadd (vadd
    (vmul self.p0 (-3 * t * t + 6 * t - 3))
    (vmul self.p1 (9 * t * t - 12 * t + 3)))
    (vmul self.p2 (-9 * t * t + 6 * t)))
    (vmul self.p3 (3 * t * t))

/-- Quadratic coefficient `a` of one axis of the derivative in
`get_bounding_box`. -/
def axisA (q0 q1 q2 q3 : ℚ) : ℚ := -3 * q0 + 9 * q1 - 9 * q2 + 3 * q3

/-- Linear coefficient `b` of one axis of the derivative in
`get_bounding_box`. -/
def axisB (q0 q1 q2 _q3 : ℚ) : ℚ := 6 * q0 - 12 * q1 + 6 * q2

/-- Constant coefficient `c` of one axis of the derivative in
`get_bounding_box`. -/
def axisC (q0 q1 _q2 _q3 : ℚ) : ℚ := -3 * q0 + 3 * q1

/-- The critical-parameter pair of one axis in `get_bounding_box`:
`quad = sqrt(b² - 4ac)`; if `|a| < 1e-6` the single linear root `-c/b`
(duplicated), otherwise the two quadratic roots. -/
def axisCrit (q0 q1 q2 q3 : ℚ) : ℚ × ℚ :=
  let a := axisA q0 q1 q2 q3
  let b := axisB q0 q1 q2 q3
  let c := axisC q0 q1 q2 q3
  let quad := ratSqrt (b ^ 2 - 4 * a * c)
  if |a| < 1 / 1000000 then
    let t0 := -c / b
    (t0, t0)
  else
    ((-b + quad) / (2 * a), (-b - quad) / (2 * a))

/-- `tx`, the critical pair of the `x` axis in `get_bounding_box`. -/
def xCrit (self : BezierCurve) : ℚ × ℚ :=
  axisCrit self.p0.x self.p1.x self.p2.x self.p3.x

/-- `ty`, the critical pair of the `y` axis in `get_bounding_box`. -/
def yCrit (self : BezierCurve) : ℚ × ℚ :=
  axisCrit self.p0.y self.p1.y self.p2.y self.p3.y

/-- The candidate-point list built by `get_bounding_box`, in push order:
both endpoints, then `tx.0`, `ty.0`, `tx.1`, `ty.1`, each kept only when
strictly inside `(0, 1)`. -/
def candidatePoints (self : BezierCurve) : List Vector2 :=
  [self.evaluate 0, self.evaluate 1]
    ++ (if (xCrit self).1 < 1 ∧ (xCrit self).1 > 0 then [self.evaluate (xCrit self).1] else [])
    ++ (if (yCrit self).1 < 1 ∧ (yCrit self).1 > 0 then [self.evaluate (yCrit self).1] else [])
    ++ (if (xCrit self).2 < 1 ∧ (xCrit self).2 > 0 then [self.evaluate (xCrit self).2] else [])
    ++ (if (yCrit self).2 < 1 ∧ (yCrit self).2 > 0 then [self.evaluate (yCrit self).2] else [])

/-- One step of the min/max accumulation loop of `get_bounding_box`,
including its `else if` structure (a point that lowers the minimum is
*not* tested against the maximum).  State is `(min_x, max_x, min_y, max_y)`. -/
def mmStep (acc : ℚ × ℚ × ℚ × ℚ) (p : Vector2) : ℚ × ℚ × ℚ × ℚ :=
  let mx := if p.x < acc.1 then (p.x, acc.2.1)
            else if p.x > acc.2.1 then (acc.1, p.x)
            else (acc.1, acc.2.1)
  let my := if p.y < acc.2.2.1 then (p.y, acc.2.2.2)
            else if p.y > acc.2.2.2 then (acc.2.2.1, p.y)
            else (acc.2.2.1, acc.2.2.2)
  (mx.1, mx.2, my.1, my.2)

/-- `BezierCurve::get_bounding_box(&self)`. -/
def BezierCurve.get_bounding_box (self : BezierCurve) : Rectangle :=
  let r := (candidatePoints self).foldl mmStep (f32MAX, f32MIN, f32MAX, f32MIN)
  ⟨r.1, r.2.2.1, r.2.1 - r.1, r.2.2.2 - r.2.2.1⟩

/-- `BezierCurve::new(p0, p1, p2, p3)`: zero-initialised cached box, then
recomputed via `get_bounding_box`. -/
def BezierCurve.new (p0 p1 p2 p3 : Vector2) : BezierCurve :=
  let curve : BezierCurve := ⟨p0, p1, p2, p3, ⟨0, 0, 0, 0⟩⟩
  { curve with bounding_box := curve.get_bounding_box }

/-- `BezierCurve::modify(mut self, point, new_position)`: takes `self` by
value, mutates the *local* copy (an invalid index only logs), recomputes
the local copy's cached box, and returns `()`.  The mutated copy is
dropped; nothing flows back to the caller. -/
def BezierCurve.modify (self : BezierCurve) (point : ℕ) (new_position : Vector2) : Unit :=
  let s :=
    if point = 0 then { self with p0 := new_position }
    else if point = 1 then { self with p1 := new_position }
    else if point = 2 then { self with p2 := new_position }
    else if point = 3 then { self with p3 := new_position }
    else self
  let _final := { s with bounding_box := s.get_bounding_box }
  ()

/-- `BezierCurve::distance(t, point)`: Euclidean distance between
`evaluate(t)` and `point`. -/
def BezierCurve.distance (self : BezierCurve) (t : ℚ) (point : Vector2) : ℚ :=
  let bezier_point := self.evaluate t
  let dx := |bezier_point.x - point.x|
  let dy := |bezier_point.y - point.y|
  ratSqrt (dx * dx + dy * dy)

/-- The `while t <= 1.0 { ...; t += 0.01 }` loop of `min_distance`,
driven by fuel that strictly exceeds the iteration count (starting from
`t = 0` the body runs exactly 101 times). -/
def mdLoop (self : BezierCurve) (point : Vector2) : ℕ → ℚ → ℚ → ℚ
  | 0, _, min_dist => min_dist
  | fuel + 1, t, min_dist =>
    if t ≤ 1 then
      mdLoop self point fuel (t + 1 / 100)
        (if self.distance t point < min_dist then self.distance t point else min_dist)
    else min_dist

/-- `BezierCurve::min_distance(point)`: uniform sampling of `t` from `0`
in steps of `0.01` while `t ≤ 1`, starting from `min_dist = f32::MAX`. -/
def BezierCurve.min_distance (self : BezierCurve) (point : Vector2) : ℚ :=
  mdLoop self point 102 0 f32MAX

/-- `world_space_to_screen_space(camera, pos)`. -/
def world_space_to_screen_space (camera : Camera) (pos : Vector2) : Vector2u32 :=
  ⟨toU32 ((pos.x - camera.x) * camera.y_scale),
   toU32 ((pos.y - camera.y) * camera.y_scale)⟩

/-- `screen_space_to_world_space(camera, pos)` (the `u32 as f32` casts are
exact in the rational model). -/
def screen_space_to_world_space (camera : Camera) (pos : Vector2u32) : Vector2 :=
  ⟨(pos.x : ℚ) / camera.y_scale + camera.x,
   (pos.y : ℚ) / camera.y_scale + camera.y⟩

/-- The pixel buffer (`OffscreenBuffer`): dimensions plus the pixel grid.
Raw `pitch`-based pointer writes at in-range coordinates correspond to
writes to the cell `(x, y)`; out-of-range writes are a caller-contract
violation (spec §4.2) and are not modelled. -/
structure Buffer where
  width : ℕ
  height : ℕ
  pix : ℕ → ℕ → ℕ

/-- Write one grid cell. -/
def setPix (buf : Buffer) (x y v : ℕ) : Buffer :=
  { buf with pix := fun X Y => if X = x ∧ Y = y then v else buf.pix X Y }

/-- `get_alpha(color)`: `(color >> 24) as f32 / 255.0`. -/
def get_alpha (color : ℕ) : ℚ := ((color >>> 24 : ℕ) : ℚ) / 255

/-- `lerp_color(a, b, t)`: per-channel lerp of the RGB bytes; the result
is packed from the three 8-bit channels only (the top byte is left 0). -/
def lerp_color (a b : ℕ) (t : ℚ) : ℕ :=
  let a_red := u8of (a >>> 16)
  let a_green := u8of (a >>> 8)
  let a_blue := u8of a
  let b_red := u8of (b >>> 16)
  let b_green := u8of (b >>> 8)
  let b_blue := u8of b
  let red := toU8 ((a_red : ℚ) + t * ((b_red : ℚ) - (a_red : ℚ)))
  let green := toU8 ((a_green : ℚ) + t * ((b_green : ℚ) - (a_green : ℚ)))
  let blue := toU8 ((a_blue : ℚ) + t * ((b_blue : ℚ) - (a_blue : ℚ)))
  Nat.lor (Nat.lor (red <<< 16) (green <<< 8)) blue

/-- `draw_pixel_to_buffer(buffer, x, y, color)`: overwrite when fully
opaque, otherwise blend via `lerp_color` with the decoded alpha. -/
def draw_pixel_to_buffer (buf : Buffer) (x y color : ℕ) : Buffer :=
  let alpha := get_alpha color
  if alpha = 1 then setPix buf x y color
  else setPix buf x y (lerp_color (buf.pix x y) color alpha)

/-- Free function `distance(a, b)` on pixel coordinates (the `u32 as f32`
casts are exact in the rational model). -/
def distance (a b : Vector2u32) : ℚ :=
  let dx := |(a.x : ℚ) - (b.x : ℚ)|
  let dy := |(a.y : ℚ) - (b.y : ℚ)|
  ratSqrt (dx * dx + dy * dy)

/-- Top-left corner of the scan box of `draw_bezier_curve`:
`world_space_to_screen_space(bb top-left) - Vector2u32::new(radius as u32 + 2)`. -/
def bezScanTL (camera : Camera) (bezier : BezierCurve) (radius : ℚ) : Vector2u32 :=
  let bounding_box := bezier.bounding_box
  Vector2u32.subv
    (world_space_to_screen_space camera ⟨bounding_box.x, bounding_box.y⟩)
    (Vector2u32.new (u32add (toU32 radius) 2))

/-- Bottom-right corner of the scan box of `draw_bezier_curve`:
`world_space_to_screen_space(bb bottom-right) + Vector2u32::new(radius as u32 + 2)`. -/
def bezScanBR (camera : Camera) (bezier : BezierCurve) (radius : ℚ) : Vector2u32 :=
  let bounding_box := bezier.bounding_box
  Vector2u32.addv
    (world_space_to_screen_space camera
      ⟨bounding_box.x + bounding_box.width, bounding_box.y + bounding_box.height⟩)
    (Vector2u32.new (u32add (toU32 radius) 2))

/-- Body of the per-pixel loop of `draw_bezier_curve`: map the pixel back
to world space, compare the scaled minimum distance against the scaled
radius, and paint opaque white on success. -/
def bezStep (camera : Camera) (bezier : BezierCurve) (radius : ℚ)
    (buf : Buffer) (x y : ℕ) : Buffer :=
  let world_pos := screen_space_to_world_space camera ⟨x, y⟩
  let world_distance := bezier.min_distance world_pos
  let screen_distance := world_distance * camera.y_scale
  let screen_radius := radius * camera.y_scale
  if screen_distance ≤ screen_radius then draw_pixel_to_buffer buf x y 4294967295
  else buf

/-- Inner (`y`) loop of `draw_bezier_curve` for one column `x`. -/
def bezRow (camera : Camera) (bezier : BezierCurve) (radius : ℚ)
    (x : ℕ) (ys : List ℕ) (buf : Buffer) : Buffer :=
  ys.foldl (fun b y => bezStep camera bezier radius b x y) buf

/-- Outer (`x`) loop of `draw_bezier_curve`. -/
def bezCols (camera : Camera) (bezier : BezierCurve) (radius : ℚ)
    (ys : List ℕ) (xs : List ℕ) (buf : Buffer) : Buffer :=
  xs.foldl (fun b x => bezRow camera bezier radius x ys b) buf

/-- `draw_bezier_curve(buffer, camera, bezier, radius)`: scan the cached
bounding box transformed to screen space and expanded by
`radius as u32 + 2` pixels on each side.  The inclusive `while` loops are
modelled as folds over `[tl, br]`. -/
def draw_bezier_curve (buf : Buffer) (camera : Camera) (bezier : BezierCurve)
    (radius : ℚ) : Buffer :=
  let tl := bezScanTL camera bezier radius
  let br := bezScanBR camera bezier radius
  bezCols camera bezier radius
    (List.range' tl.y (br.y + 1 - tl.y))
    (List.range' tl.x (br.x + 1 - tl.x)) buf

/-- The curve drawn by `game_update_and_render`:
`{(0, 0.5), (1, 0), (1, 1.6), (0, 2)}`. -/
def c3curve : BezierCurve :=
  BezierCurve.new ⟨0, 1/2⟩ ⟨1, 0⟩ ⟨1, 8/5⟩ ⟨0, 2⟩

/-- A curve whose first candidate point is the strict maximum in `x`:
`p0 = (1, 0)`, `p1 = p2 = p3 = (0, 0)`. -/
def c1curve : BezierCurve :=
  BezierCurve.new ⟨1, 0⟩ ⟨0, 0⟩ ⟨0, 0⟩ ⟨0, 0⟩

/-- A camera with a large zoom factor (1000 pixels per world unit),
positioned so the test curve is fully on-screen. -/
def cam1000 : Camera := ⟨-1, 0, 3, 3, 1000⟩

/-- An all-zero 2500×2500 buffer. -/
def bufZero : Buffer := ⟨2500, 2500, fun _ _ => 0⟩

/-- The control points of the scene curve with a zero-initialised cached
box (the receiver on which `BezierCurve::new` computes the cache). -/
def c3base : BezierCurve := ⟨⟨0, 1/2⟩, ⟨1, 0⟩, ⟨1, 8/5⟩, ⟨0, 2⟩, ⟨0, 0, 0, 0⟩⟩

/-- The control points of the `c1` test curve with a zero-initialised
cached box. -/
def c1base : BezierCurve := ⟨⟨1, 0⟩, ⟨0, 0⟩, ⟨0, 0⟩, ⟨0, 0⟩, ⟨0, 0, 0, 0⟩⟩

/-- A 4×4 buffer whose every pixel holds `0xFF000000` (opaque black). -/
def bufFF : Buffer := ⟨4, 4, fun _ _ => 4278190080⟩

/-- A degenerate curve (all `x`-coordinates equal) whose `x`-axis
derivative has `a = b = 0`. -/
def c8curve : BezierCurve := ⟨⟨5, 1/2⟩, ⟨5, 0⟩, ⟨5, 8/5⟩, ⟨5, 2⟩, ⟨0, 0, 0, 0⟩⟩

/-- The paint condition of `draw_bezier_curve` for pixel `(x, y)`:
scaled minimum distance within scaled radius. -/
def bezHit (camera : Camera) (bezier : BezierCurve) (radius : ℚ) (x y : ℕ) : Prop :=
  bezier.min_distance (screen_space_to_world_space camera ⟨x, y⟩) * camera.y_scale
    ≤ radius * camera.y_scale

instance (camera : Camera) (bezier : BezierCurve) (radius : ℚ) (x y : ℕ) :
    Decidable (bezHit camera bezier radius x y) := by
  unfold bezHit
  infer_instance

/-- Pixel `(x, y)` lies in the (inclusive) scan box of `draw_bezier_curve`. -/
def inScan (camera : Camera) (bezier : BezierCurve) (radius : ℚ) (x y : ℕ) : Prop :=
  ((bezScanTL camera bezier radius).x ≤ x ∧ x ≤ (bezScanBR camera bezier radius).x)
  ∧ ((bezScanTL camera bezier radius).y ≤ y ∧ y ≤ (bezScanBR camera bezier radius).y)

instance (camera : Camera) (bezier : BezierCurve) (radius : ℚ) (x y : ℕ) :
    Decidable (inScan camera bezier radius x y) := by
  unfold inScan
  infer_instance



theorem c3curve_eq : c3curve = { c3base with bounding_box := c3base.get_bounding_box } := by
  with_unfolding_all rfl

theorem xCrit_c3 : xCrit c3base = (1/2, 1/2) := by with_unfolding_all decide

theorem yCrit_c3 : yCrit c3base = (2/15, 188/165) := by with_unfolding_all decide

theorem ev0_c3 : c3base.evaluate 0 = ⟨0, 1/2⟩ := by
  norm_num [BezierCurve.evaluate, vadd, vmul, c3base]

theorem ev1_c3 : c3base.evaluate 1 = ⟨0, 2⟩ := by
  norm_num [BezierCurve.evaluate, vadd, vmul, c3base]

theorem evhalf_c3 : c3base.evaluate (1/2) = ⟨3/4, 73/80⟩ := by
  norm_num [BezierCurve.evaluate, vadd, vmul, c3base]

theorem ev215_c3 : c3base.evaluate (2/15) = ⟨26/75, 4547/11250⟩ := by
  norm_num [BezierCurve.evaluate, vadd, vmul, c3base]

theorem cands_c3 : candidatePoints c3base =
    [⟨0, 1/2⟩, ⟨0, 2⟩, ⟨3/4, 73/80⟩, ⟨26/75, 4547/11250⟩, ⟨3/4, 73/80⟩] := by
  rw [candidatePoints, xCrit_c3, yCrit_c3]
  norm_num [ev0_c3, ev1_c3, evhalf_c3, ev215_c3]

theorem bbox_c3 : c3base.get_bounding_box = ⟨0, 4547/11250, 3/4, 17953/11250⟩ := by
  rw [BezierCurve.get_bounding_box, cands_c3]
  norm_num [List.foldl, mmStep, f32MAX, f32MIN]

theorem c3curve_bbox : c3curve.bounding_box = ⟨0, 4547/11250, 3/4, 17953/11250⟩ := by
  rw [c3curve_eq]
  exact bbox_c3


theorem mem_range'_iff (s n m : ℕ) : m ∈ List.range' s n ↔ s ≤ m ∧ m < s + n := by
  rw [List.mem_range']
  constructor
  · rintro ⟨i, hi, rfl⟩
    omega
  · intro h
    exact ⟨m - s, by omega, by omega⟩

theorem step_eq_min (md d : ℚ) : (if d < md then d else md) = min md d := by
  rcases lt_or_le d md with h | h
  · rw [if_pos h, min_eq_right (le_of_lt h)]
  · rw [if_neg (not_lt.mpr h), min_eq_left h]

theorem foldl_min_le_init (l : List ℚ) : ∀ m : ℚ, l.foldl min m ≤ m := by
  induction l with
  | nil => intro m; exact le_refl m
  | cons a l ih =>
    intro m
    exact le_trans (ih (min m a)) (min_le_left m a)

theorem foldl_min_le_mem {a : ℚ} (l : List ℚ) (h : a ∈ l) : ∀ m : ℚ, l.foldl min m ≤ a := by
  induction l with
  | nil => exact absurd h (List.not_mem_nil a)
  | cons b l ih =>
    intro m
    rw [List.foldl_cons]
    rcases List.mem_cons.mp h with rfl | hmem
    · exact le_trans (foldl_min_le_init l (min m a)) (min_le_right m a)
    · exact ih hmem (min m b)

theorem castDiv_le_one (n : ℕ) : ((n : ℚ) / 100 ≤ 1) ↔ n ≤ 100 := by
  rw [div_le_one (by norm_num : (0:ℚ) < 100)]
  exact_mod_cast Nat.cast_le (α := ℚ)

theorem mdLoop_eq (c : BezierCurve) (p : Vector2) :
    ∀ (fuel n : ℕ) (m : ℚ), 101 - n < fuel →
      mdLoop c p fuel ((n : ℚ) / 100) m
        = ((List.range' n (101 - n)).map fun i : ℕ => c.distance ((i : ℚ) / 100) p).foldl min m := by
  intro fuel
  induction fuel with
  | zero => intro n m h; exact absurd h (by omega)
  | succ fuel ih =>
    intro n m h
    rcases le_or_lt n 100 with hn | hn
    · have ht : ((n : ℚ) / 100 ≤ 1) := (castDiv_le_one n).mpr hn
      have hnr : 101 - n = (100 - n) + 1 := by omega
      rw [mdLoop, if_pos ht, hnr, List.range'_succ, List.map_cons, List.foldl_cons]
      have cast_step : (n : ℚ) / 100 + 1 / 100 = ((n + 1 : ℕ) : ℚ) / 100 := by
        push_cast
        ring
      rw [step_eq_min, cast_step]
      have h2 : 101 - (n + 1) < fuel := by omega
      have := ih (n + 1) (min m (c.distance ((n : ℚ) / 100) p)) h2
      rw [this]
      have : 101 - (n + 1) = 100 - n := by omega
      rw [this]
    · have ht : ¬ ((n : ℚ) / 100 ≤ 1) := by
        rw [castDiv_le_one]
        omega
      have : 101 - n = 0 := by omega
      rw [mdLoop, if_neg ht, this]
      simp

theorem min_distance_eq (c : BezierCurve) (p : Vector2) :
    c.min_distance p
      = ((List.range' 0 101).map fun i : ℕ => c.distance ((i : ℚ) / 100) p).foldl min f32MAX := by
  rw [BezierCurve.min_distance]
  have h0 : (0 : ℚ) = ((0 : ℕ) : ℚ) / 100 := by norm_num
  rw [h0, mdLoop_eq c p 102 0 f32MAX (by omega)]

theorem min_distance_le_sample (c : BezierCurve) (p : Vector2) (i : ℕ) (hi : i ≤ 100) :
    c.min_distance p ≤ c.distance ((i : ℚ) / 100) p := by
  rw [min_distance_eq]
  apply foldl_min_le_mem
  exact List.mem_map.mpr ⟨i, (mem_range'_iff 0 101 i).mpr (by omega), rfl⟩



theorem ev0_c1 : c1base.evaluate 0 = ⟨1, 0⟩ := by
  norm_num [BezierCurve.evaluate, vadd, vmul, c1base]

theorem ev1_c1 : c1base.evaluate 1 = ⟨0, 0⟩ := by
  norm_num [BezierCurve.evaluate, vadd, vmul, c1base]

theorem xCrit_c1 : xCrit c1base = (1, 1) := by with_unfolding_all decide

theorem yCrit_c1 : yCrit c1base = (0, 0) := by with_unfolding_all decide

theorem cands_c1 : candidatePoints c1base = [⟨1, 0⟩, ⟨0, 0⟩] := by
  rw [candidatePoints, xCrit_c1, yCrit_c1]
  norm_num [ev0_c1, ev1_c1]

theorem bbox_c1 : c1base.get_bounding_box = ⟨0, 0, f32MIN, 0⟩ := by
  rw [BezierCurve.get_bounding_box, cands_c1]
  norm_num [List.foldl, mmStep, f32MAX, f32MIN]

/-- Claim C1: In `get_bounding_box`, the `else if` in the min/max
accumulation skips the max update whenever a point lowers the running
minimum; for a curve whose first candidate (the `t = 0` endpoint) is the
strict maximum in `x`, the returned rectangle keeps `max_x = f32::MIN`
and fails to contain `evaluate(0)`. -/
theorem get_bounding_box_excludes_endpoint :
    c1base.evaluate 0 = ⟨1, 0⟩
    ∧ c1base.get_bounding_box = ⟨0, 0, f32MIN, 0⟩
    ∧ ¬(c1base.get_bounding_box.x ≤ (c1base.evaluate 0).x
        ∧ (c1base.evaluate 0).x ≤ c1base.get_bounding_box.x + c1base.get_bounding_box.width) := by
  refine ⟨ev0_c1, bbox_c1, ?_⟩
  rw [bbox_c1, ev0_c1]
  norm_num [f32MIN]

/-- Claim C10: `modify` takes the curve by value and returns `()`: the
mutated copy (including its recomputed cached box) is dropped, so a call
has no observable effect on the caller's curve, which in this pure
embedding appears as `modify` returning only the unit value. -/
theorem modify_no_caller_effect (c : BezierCurve) (point : ℕ) (new_position : Vector2) :
    BezierCurve.modify c point new_position = () := rfl

/-- Claim C6: `Rectangle::intersects` never reports a false negative: for
rectangles whose extents overlap along both axes it returns `true` (the
`x`-axis overlap alone already satisfies the first disjunct of the `||`). -/
theorem intersects_no_false_negative (A B : Rectangle)
    (hx1 : A.x ≤ B.x + B.width) (hx2 : B.x ≤ A.x + A.width)
    (hy1 : A.y ≤ B.y + B.height) (hy2 : B.y ≤ A.y + A.height) :
    A.intersects B = true := by
  simp only [Rectangle.intersects, Bool.or_eq_true, decide_eq_true_eq, ge_iff_le]
  exact Or.inl hx2

/-- Witness for `intersects_no_false_negative` on two genuinely
overlapping rectangles. -/
theorem intersects_no_false_negative_witness :
    ((⟨0, 0, 1, 1⟩ : Rectangle).intersects ⟨1/2, 1/2, 1, 1⟩) = true :=
  intersects_no_false_negative ⟨0, 0, 1, 1⟩ ⟨1/2, 1/2, 1, 1⟩
    (by norm_num) (by norm_num) (by norm_num) (by norm_num)

/-- Claim C9 (amended): For components below `2^31` (where the `u32 → i32`
casts are value-preserving and the `i32` subtraction cannot overflow),
`Vector2u32` subtraction is componentwise saturating subtraction. -/
theorem subv_saturating (a b : Vector2u32)
    (hax : a.x < 2 ^ 31) (hbx : b.x < 2 ^ 31) (hay : a.y < 2 ^ 31) (hby : b.y < 2 ^ 31) :
    Vector2u32.subv a b = ⟨a.x - b.x, a.y - b.y⟩ := by
  unfold Vector2u32.subv
  rw [Vector2u32.mk.injEq, i32ofU32, i32ofU32, i32ofU32, i32ofU32,
    if_pos hax, if_pos hbx, if_pos hay, if_pos hby, wrapI32, wrapI32]
  unfold U32MOD
  norm_num at hax hbx hay hby ⊢
  constructor <;> omega

/-- Counterexample to claim C9 as stated for all `u32` values: at
`x = 2^31` the `as i32` cast reinterprets the value as negative and the
result is `0`, not the saturating difference `2^31`. -/
theorem subv_wraps_large :
    Vector2u32.subv ⟨2147483648, 0⟩ ⟨0, 0⟩
      ≠ ⟨(⟨2147483648, 0⟩ : Vector2u32).x - (⟨0, 0⟩ : Vector2u32).x,
         (⟨2147483648, 0⟩ : Vector2u32).y - (⟨0, 0⟩ : Vector2u32).y⟩ := by
  with_unfolding_all decide

/-- Witness for `subv_saturating`: the spec's own example
`{0,0} - {5,5} = {0,0}`. -/
theorem subv_saturating_witness : Vector2u32.subv ⟨0, 0⟩ ⟨5, 5⟩ = ⟨0, 0⟩ := by
  have h := subv_saturating ⟨0, 0⟩ ⟨5, 5⟩ (by norm_num) (by norm_num) (by norm_num) (by norm_num)
  simpa using h


theorem toU32_floor (q : ℚ) (h0 : 0 ≤ q) (h1 : q < (U32MOD : ℕ)) :
    ((toU32 q : ℕ) : ℚ) = ((⌊q⌋ : ℤ) : ℚ) := by
  rw [toU32]
  have hf0 : 0 ≤ ⌊q⌋ := Int.floor_nonneg.mpr h0
  have hf1 : ⌊q⌋ < (U32MOD : ℤ) := by
    rw [Int.floor_lt]
    exact_mod_cast h1
  have hmin : min (⌊q⌋.toNat) (U32MOD - 1) = ⌊q⌋.toNat := by
    apply min_eq_left
    unfold U32MOD at hf1 ⊢
    omega
  rw [hmin]
  exact_mod_cast congrArg (fun z : ℤ => (z : ℚ)) (Int.toNat_of_nonneg hf0)

/-- Claim C5: For a camera with positive scale and a world point whose
screen coordinate is non-negative and in `u32` range, the composition
`world_space_to_screen_space` then `screen_space_to_world_space` moves
each coordinate by at most one pixel width `1 / y_scale`. -/
theorem round_trip_within_pixel (camera : Camera) (pos : Vector2)
    (hs : 0 < camera.y_scale)
    (hx0 : camera.x ≤ pos.x) (hy0 : camera.y ≤ pos.y)
    (hx1 : (pos.x - camera.x) * camera.y_scale < (U32MOD : ℕ))
    (hy1 : (pos.y - camera.y) * camera.y_scale < (U32MOD : ℕ)) :
    |(screen_space_to_world_space camera (world_space_to_screen_space camera pos)).x - pos.x|
        ≤ 1 / camera.y_scale
    ∧ |(screen_space_to_world_space camera (world_space_to_screen_space camera pos)).y - pos.y|
        ≤ 1 / camera.y_scale := by
  have key : ∀ q c0 : ℚ, 0 ≤ q → q < (U32MOD : ℕ) →
      |((toU32 q : ℕ) : ℚ) / camera.y_scale + c0 - (q / camera.y_scale + c0)|
        ≤ 1 / camera.y_scale := by
    intro q c0 h0 h1
    rw [toU32_floor q h0 h1]
    have hrw : ((⌊q⌋ : ℤ) : ℚ) / camera.y_scale + c0 - (q / camera.y_scale + c0)
        = (((⌊q⌋ : ℤ) : ℚ) - q) / camera.y_scale := by ring
    rw [hrw, abs_div, abs_of_pos hs]
    rw [div_le_div_right hs]
    have l1 : ((⌊q⌋ : ℤ) : ℚ) ≤ q := Int.floor_le q
    have l2 : q < ((⌊q⌋ : ℤ) : ℚ) + 1 := Int.lt_floor_add_one q
    rw [abs_le]
    constructor <;> linarith
  constructor
  · have hq0 : 0 ≤ (pos.x - camera.x) * camera.y_scale :=
      mul_nonneg (by linarith) (le_of_lt hs)
    have hqx : (pos.x - camera.x) * camera.y_scale / camera.y_scale + camera.x = pos.x := by
      field_simp
    have h := key ((pos.x - camera.x) * camera.y_scale) camera.x hq0 hx1
    rw [hqx] at h
    exact h
  · have hq0 : 0 ≤ (pos.y - camera.y) * camera.y_scale :=
      mul_nonneg (by linarith) (le_of_lt hs)
    have hqy : (pos.y - camera.y) * camera.y_scale / camera.y_scale + camera.y = pos.y := by
      field_simp
    have h := key ((pos.y - camera.y) * camera.y_scale) camera.y hq0 hy1
    rw [hqy] at h
    exact h

/-- Witness for `round_trip_within_pixel` at a concrete camera and point. -/
theorem round_trip_within_pixel_witness :
    (0 : ℚ) < (⟨0, 0, 10, 10, 2⟩ : Camera).y_scale
    ∧ |(screen_space_to_world_space ⟨0, 0, 10, 10, 2⟩
          (world_space_to_screen_space ⟨0, 0, 10, 10, 2⟩ ⟨3/2, 5/4⟩)).x - (3/2 : ℚ)|
        ≤ 1 / (⟨0, 0, 10, 10, 2⟩ : Camera).y_scale
    ∧ |(screen_space_to_world_space ⟨0, 0, 10, 10, 2⟩
          (world_space_to_screen_space ⟨0, 0, 10, 10, 2⟩ ⟨3/2, 5/4⟩)).y - (5/4 : ℚ)|
        ≤ 1 / (⟨0, 0, 10, 10, 2⟩ : Camera).y_scale := by
  have h := round_trip_within_pixel ⟨0, 0, 10, 10, 2⟩ ⟨3/2, 5/4⟩
    (by norm_num) (by norm_num) (by norm_num) (by norm_num [U32MOD]) (by norm_num [U32MOD])
  exact ⟨by norm_num, h.1, h.2⟩


theorem setPix_self (buf : Buffer) (x y v : ℕ) : (setPix buf x y v).pix x y = v := by
  simp [setPix]

theorem pack_bound (r g b : ℕ) (hr : r < 256) (hg : g < 256) (hb : b < 256) :
    r * 65536 + g * 256 + b < 16777216 := by
  omega

theorem pack_eq (r g b : ℕ) (hr : r < 256) (hg : g < 256) (hb : b < 256) :
    Nat.lor (Nat.lor (r <<< 16) (g <<< 8)) b = r * 65536 + g * 256 + b := by
  have e1 : r <<< 16 = 2 ^ 16 * r := by rw [Nat.shiftLeft_eq]; ring
  have e2 : g <<< 8 = 2 ^ 8 * g := by rw [Nat.shiftLeft_eq]; ring
  have h1 : Nat.lor (2 ^ 16 * r) (2 ^ 8 * g) = 2 ^ 16 * r + 2 ^ 8 * g := by
    symm
    apply Nat.mul_add_lt_is_or
    norm_num
    omega
  have h2 : Nat.lor (2 ^ 16 * r + 2 ^ 8 * g) b = 2 ^ 16 * r + 2 ^ 8 * g + b := by
    have hsplit : 2 ^ 16 * r + 2 ^ 8 * g = 2 ^ 8 * (2 ^ 8 * r + g) := by ring
    rw [hsplit]
    symm
    apply Nat.mul_add_lt_is_or
    norm_num
    omega
  rw [e1, e2, h1, h2]
  ring

theorem toU8_lt (q : ℚ) : toU8 q < 256 :=
  lt_of_le_of_lt (min_le_right _ _) (by norm_num)

theorem toU8_natCast (n : ℕ) (h : n ≤ 255) : toU8 ((n : ℕ) : ℚ) = n := by
  rw [toU8, Int.floor_natCast]
  simp only [Int.toNat_ofNat]
  omega

theorem u8of_lt (n : ℕ) : u8of n < 256 := Nat.mod_lt _ (by norm_num)

theorem lerp_zero (a b : ℕ) : lerp_color a b 0 = a % 16777216 := by
  have hch : ∀ x y : ℕ, toU8 ((u8of x : ℚ) + 0 * ((u8of y : ℚ) - (u8of x : ℚ))) = u8of x := by
    intro x y
    have harg : (u8of x : ℚ) + 0 * ((u8of y : ℚ) - (u8of x : ℚ)) = ((u8of x : ℕ) : ℚ) := by
      ring
    rw [harg, toU8_natCast _ (by have := u8of_lt x; omega)]
  simp only [lerp_color]
  rw [hch, hch, hch, pack_eq _ _ _ (u8of_lt _) (u8of_lt _) (u8of_lt _)]
  unfold u8of
  rw [Nat.shiftRight_eq_div_pow, Nat.shiftRight_eq_div_pow]
  norm_num
  omega

theorem lerp_lt (a b : ℕ) (t : ℚ) : lerp_color a b t < 16777216 := by
  simp only [lerp_color]
  rw [pack_eq _ _ _ (toU8_lt _) (toU8_lt _) (toU8_lt _)]
  exact pack_bound _ _ _ (toU8_lt _) (toU8_lt _) (toU8_lt _)

/-- Claim C2 (amended): `draw_pixel_to_buffer` stores the source colour
exactly when the alpha byte is `0xFF`; with alpha byte `0x00` it keeps
the destination's RGB bytes but *clears* the stored alpha byte (the
packed result has top byte `0`, so the stored 32-bit value generally
changes); and every blended (non-opaque) write stores a value below
`2^24`, i.e. with alpha byte `0x00` — not `0xFF`. -/
theorem draw_pixel_contract (buf : Buffer) (x y color : ℕ) (hc : color < U32MOD) :
    (color >>> 24 = 255 → (draw_pixel_to_buffer buf x y color).pix x y = color)
    ∧ (color >>> 24 = 0 →
        (draw_pixel_to_buffer buf x y color).pix x y = buf.pix x y % 16777216)
    ∧ (color >>> 24 ≠ 255 → (draw_pixel_to_buffer buf x y color).pix x y < 16777216) := by
  refine ⟨?_, ?_, ?_⟩
  · intro h
    have ha : get_alpha color = 1 := by rw [get_alpha, h]; norm_num
    simp only [draw_pixel_to_buffer, ha]
    rw [if_pos trivial, setPix_self]
  · intro h
    have ha : get_alpha color = 0 := by rw [get_alpha, h]; norm_num
    simp only [draw_pixel_to_buffer, ha]
    rw [if_neg (by norm_num), setPix_self, lerp_zero]
  · intro h
    have ha : get_alpha color ≠ 1 := by
      rw [get_alpha]
      intro heq
      rw [div_eq_one_iff_eq (by norm_num : (255:ℚ) ≠ 0)] at heq
      exact h (by exact_mod_cast heq)
    simp only [draw_pixel_to_buffer]
    rw [if_neg ha, setPix_self]
    exact lerp_lt _ _ _

/-- Counterexample to claim C2 as stated: writing an alpha-`0x00` colour
over destination `0xFF000000` changes the stored value to `0x00000000`
(the destination's alpha byte is discarded by `lerp_color`). -/
theorem draw_pixel_zero_alpha_modifies :
    (draw_pixel_to_buffer bufFF 0 0 11259375).pix 0 0 ≠ bufFF.pix 0 0 := by
  have ha : get_alpha 11259375 = 0 := by with_unfolding_all decide
  simp only [draw_pixel_to_buffer, ha]
  rw [if_neg (by norm_num), setPix_self, lerp_zero]
  simp [bufFF]

/-- Witness for `draw_pixel_contract`: an opaque write stores the source,
an alpha-0 write keeps only the RGB bytes, a half-transparent write
stores alpha byte 0. -/
theorem draw_pixel_contract_witness :
    (draw_pixel_to_buffer bufFF 0 0 4279383126).pix 0 0 = 4279383126
    ∧ (draw_pixel_to_buffer bufFF 0 0 1193046).pix 0 0 = bufFF.pix 0 0 % 16777216
    ∧ (draw_pixel_to_buffer bufFF 0 0 2148655446).pix 0 0 < 16777216 := by
  refine ⟨?_, ?_, ?_⟩
  · exact (draw_pixel_contract bufFF 0 0 4279383126 (by norm_num [U32MOD])).1
      (by with_unfolding_all decide)
  · exact (draw_pixel_contract bufFF 0 0 1193046 (by norm_num [U32MOD])).2.1
      (by with_unfolding_all decide)
  · exact (draw_pixel_contract bufFF 0 0 2148655446 (by norm_num [U32MOD])).2.2
      (by with_unfolding_all decide)


theorem dpb_pix_other (buf : Buffer) (x y c X Y : ℕ) (h : ¬(X = x ∧ Y = y)) :
    (draw_pixel_to_buffer buf x y c).pix X Y = buf.pix X Y := by
  simp only [draw_pixel_to_buffer]
  split <;> simp [setPix, h]

theorem dpb_white (buf : Buffer) (x y : ℕ) :
    (draw_pixel_to_buffer buf x y 4294967295).pix x y = 4294967295 := by
  have ha : get_alpha 4294967295 = 1 := by with_unfolding_all decide
  simp only [draw_pixel_to_buffer, ha]
  rw [if_pos trivial, setPix_self]

theorem bezStep_pix_other (camera : Camera) (bezier : BezierCurve) (radius : ℚ)
    (buf : Buffer) (x y X Y : ℕ) (h : ¬(X = x ∧ Y = y)) :
    (bezStep camera bezier radius buf x y).pix X Y = buf.pix X Y := by
  simp only [bezStep]
  split
  · exact dpb_pix_other _ _ _ _ _ _ h
  · rfl

theorem bezStep_pix_self (camera : Camera) (bezier : BezierCurve) (radius : ℚ)
    (buf : Buffer) (x y : ℕ) :
    (bezStep camera bezier radius buf x y).pix x y
      = if bezHit camera bezier radius x y then 4294967295 else buf.pix x y := by
  simp only [bezStep, bezHit]
  split
  · exact dpb_white _ _ _
  · rfl

theorem bezRow_pix (camera : Camera) (bezier : BezierCurve) (radius : ℚ) (x : ℕ)
    (ys : List ℕ) : ∀ (buf : Buffer) (X Y : ℕ),
    (bezRow camera bezier radius x ys buf).pix X Y
      = if X = x ∧ Y ∈ ys ∧ bezHit camera bezier radius X Y then 4294967295
        else buf.pix X Y := by
  induction ys with
  | nil =>
    intro buf X Y
    simp [bezRow]
  | cons y ys ih =>
    intro buf X Y
    have hstep : bezRow camera bezier radius x (y :: ys) buf
        = bezRow camera bezier radius x ys (bezStep camera bezier radius buf x y) := by
      simp only [bezRow, List.foldl_cons]
    rw [hstep, ih]
    by_cases h1 : X = x ∧ Y ∈ ys ∧ bezHit camera bezier radius X Y
    · rw [if_pos h1, if_pos ⟨h1.1, List.mem_cons_of_mem y h1.2.1, h1.2.2⟩]
    · rw [if_neg h1]
      by_cases h2 : X = x ∧ Y = y
      · obtain ⟨rfl, rfl⟩ := h2
        rw [bezStep_pix_self]
        by_cases h3 : bezHit camera bezier radius X Y
        · rw [if_pos h3, if_pos ⟨rfl, List.mem_cons_self Y ys, h3⟩]
        · rw [if_neg h3, if_neg]
          rintro ⟨-, -, h4⟩
          exact h3 h4
      · rw [bezStep_pix_other _ _ _ _ _ _ _ _ h2, if_neg]
        rintro ⟨hX, hY, hH⟩
        rcases List.mem_cons.mp hY with rfl | hY2
        · exact h2 ⟨hX, rfl⟩
        · exact h1 ⟨hX, hY2, hH⟩

theorem bezCols_pix (camera : Camera) (bezier : BezierCurve) (radius : ℚ)
    (ys : List ℕ) (xs : List ℕ) : ∀ (buf : Buffer) (X Y : ℕ),
    (bezCols camera bezier radius ys xs buf).pix X Y
      = if X ∈ xs ∧ Y ∈ ys ∧ bezHit camera bezier radius X Y then 4294967295
        else buf.pix X Y := by
  induction xs with
  | nil =>
    intro buf X Y
    simp [bezCols]
  | cons x xs ih =>
    intro buf X Y
    have hstep : bezCols camera bezier radius ys (x :: xs) buf
        = bezCols camera bezier radius ys xs (bezRow camera bezier radius x ys buf) := by
      simp only [bezCols, List.foldl_cons]
    rw [hstep, ih, bezRow_pix]
    by_cases h1 : X ∈ xs ∧ Y ∈ ys ∧ bezHit camera bezier radius X Y
    · rw [if_pos h1, if_pos ⟨List.mem_cons_of_mem x h1.1, h1.2⟩]
    · rw [if_neg h1]
      by_cases h2 : X = x ∧ Y ∈ ys ∧ bezHit camera bezier radius X Y
      · rw [if_pos h2, if_pos ⟨by rw [h2.1]; exact List.mem_cons_self x xs, h2.2⟩]
      · rw [if_neg h2, if_neg]
        rintro ⟨hX, hY, hH⟩
        rcases List.mem_cons.mp hX with rfl | hX2
        · exact h2 ⟨rfl, hY, hH⟩
        · exact h1 ⟨hX2, hY, hH⟩

theorem draw_bezier_pix (buf : Buffer) (camera : Camera) (bezier : BezierCurve)
    (radius : ℚ) (X Y : ℕ) :
    (draw_bezier_curve buf camera bezier radius).pix X Y
      = if inScan camera bezier radius X Y ∧ bezHit camera bezier radius X Y
        then 4294967295 else buf.pix X Y := by
  simp only [draw_bezier_curve]
  rw [bezCols_pix]
  have hiff : (X ∈ List.range' (bezScanTL camera bezier radius).x
        ((bezScanBR camera bezier radius).x + 1 - (bezScanTL camera bezier radius).x)
      ∧ Y ∈ List.range' (bezScanTL camera bezier radius).y
        ((bezScanBR camera bezier radius).y + 1 - (bezScanTL camera bezier radius).y)
      ∧ bezHit camera bezier radius X Y)
      ↔ (inScan camera bezier radius X Y ∧ bezHit camera bezier radius X Y) := by
    unfold inScan
    rw [mem_range'_iff, mem_range'_iff]
    constructor
    · rintro ⟨h1, h2, h3⟩
      exact ⟨⟨⟨h1.1, by omega⟩, ⟨h2.1, by omega⟩⟩, h3⟩
    · rintro ⟨⟨⟨ha, hb⟩, hc, hd⟩, h3⟩
      exact ⟨⟨ha, by omega⟩, ⟨hc, by omega⟩, h3⟩
  rw [if_congr hiff rfl rfl]


theorem rs0 : ratSqrt 0 = 0 := by with_unfolding_all decide

theorem rs10000 : ratSqrt (1/10000) = 1/100 := by with_unfolding_all decide

theorem ev0_c3curve : c3curve.evaluate 0 = ⟨0, 1/2⟩ := by
  rw [c3curve_eq]
  exact ev0_c3

theorem s2w_990 : screen_space_to_world_space cam1000 ⟨990, 500⟩ = ⟨-1/100, 1/2⟩ := by
  norm_num [screen_space_to_world_space, cam1000]

theorem s2w_1000 : screen_space_to_world_space cam1000 ⟨1000, 500⟩ = ⟨0, 1/2⟩ := by
  norm_num [screen_space_to_world_space, cam1000]

theorem dist990 : c3curve.distance 0 ⟨-1/100, 1/2⟩ = 1/100 := by
  simp only [BezierCurve.distance, ev0_c3curve]
  norm_num [rs10000]

theorem dist1000 : c3curve.distance 0 ⟨0, 1/2⟩ = 0 := by
  simp only [BezierCurve.distance, ev0_c3curve]
  norm_num [rs0]

theorem mind990 : c3curve.min_distance ⟨-1/100, 1/2⟩ ≤ 1/50 := by
  have h := min_distance_le_sample c3curve ⟨-1/100, 1/2⟩ 0 (by omega)
  rw [show (((0 : ℕ) : ℚ) / 100) = (0 : ℚ) by norm_num, dist990] at h
  linarith

theorem mind1000 : c3curve.min_distance ⟨0, 1/2⟩ ≤ 1/50 := by
  have h := min_distance_le_sample c3curve ⟨0, 1/2⟩ 0 (by omega)
  rw [show (((0 : ℕ) : ℚ) / 100) = (0 : ℚ) by norm_num, dist1000] at h
  linarith

theorem scanTL_c3 : bezScanTL cam1000 c3curve (1/50) = ⟨998, 402⟩ := by
  rw [bezScanTL, c3curve_bbox]
  with_unfolding_all decide

theorem scanBR_c3 : bezScanBR cam1000 c3curve (1/50) = ⟨1752, 2002⟩ := by
  rw [bezScanBR, c3curve_bbox]
  with_unfolding_all decide

/-- Claim C3 (amended): For the scene curve drawn with `radius = 0.02` under
any camera with positive scale: a pixel *inside the scan box* (cached
bounding box in screen space, expanded by `radius as u32 + 2 = 2` pixels)
whose mapped world point is within distance `0.02` of the curve is
painted opaque white, and any pixel whose mapped world point is farther
than `0.02` is left unmodified.  Pixels outside the scan box are never
written, even when within the `0.02` band (see
`draw_bezier_misses_near_pixel`). -/
theorem draw_bezier_thickness (camera : Camera) (buf : Buffer)
    (hs : 0 < camera.y_scale) (x y : ℕ) :
    (inScan camera c3curve (1/50) x y
        ∧ c3curve.min_distance (screen_space_to_world_space camera ⟨x, y⟩) ≤ 1/50
      → (draw_bezier_curve buf camera c3curve (1/50)).pix x y = 4294967295)
    ∧ (1/50 < c3curve.min_distance (screen_space_to_world_space camera ⟨x, y⟩)
      → (draw_bezier_curve buf camera c3curve (1/50)).pix x y = buf.pix x y) := by
  constructor
  · rintro ⟨hbox, hd⟩
    rw [draw_bezier_pix, if_pos]
    exact ⟨hbox, mul_le_mul_of_nonneg_right hd hs.le⟩
  · intro hd
    rw [draw_bezier_pix, if_neg]
    rintro ⟨-, hhit⟩
    have hle : c3curve.min_distance (screen_space_to_world_space camera ⟨x, y⟩) ≤ 1/50 :=
      le_of_mul_le_mul_right hhit hs
    linarith

/-- Counterexample to claim C3 as stated: under a 1000×-zoom camera, pixel
`(990, 500)` maps to world `(-0.01, 0.5)`, within `0.01 ≤ 0.02` of the
curve, yet lies left of the scan box (`x < 998`) and is never painted. -/
theorem draw_bezier_misses_near_pixel :
    c3curve.min_distance (screen_space_to_world_space cam1000 ⟨990, 500⟩) ≤ 1/50
    ∧ (draw_bezier_curve bufZero cam1000 c3curve (1/50)).pix 990 500 = bufZero.pix 990 500
    ∧ bufZero.pix 990 500 ≠ 4294967295 := by
  refine ⟨?_, ?_, by simp [bufZero]⟩
  · rw [s2w_990]
    exact mind990
  · rw [draw_bezier_pix, if_neg]
    rintro ⟨hscan, -⟩
    unfold inScan at hscan
    obtain ⟨⟨h1, -⟩, -⟩ := hscan
    rw [scanTL_c3] at h1
    exact absurd h1 (by norm_num)

/-- Witness for `draw_bezier_thickness`: pixel `(1000, 500)` maps to the
on-curve world point `(0, 0.5)` inside the scan box and is painted white. -/
theorem draw_bezier_thickness_witness :
    (0 : ℚ) < cam1000.y_scale
    ∧ inScan cam1000 c3curve (1/50) 1000 500
    ∧ c3curve.min_distance (screen_space_to_world_space cam1000 ⟨1000, 500⟩) ≤ 1/50
    ∧ (draw_bezier_curve bufZero cam1000 c3curve (1/50)).pix 1000 500 = 4294967295 := by
  have hs : (0 : ℚ) < cam1000.y_scale := by norm_num [cam1000]
  have hscan : inScan cam1000 c3curve (1/50) 1000 500 := by
    unfold inScan
    rw [scanTL_c3, scanBR_c3]
    norm_num
  have hmind : c3curve.min_distance (screen_space_to_world_space cam1000 ⟨1000, 500⟩) ≤ 1/50 := by
    rw [s2w_1000]
    exact mind1000
  exact ⟨hs, hscan, hmind,
    (draw_bezier_thickness cam1000 bufZero hs 1000 500).1 ⟨hscan, hmind⟩⟩



/-- Claim C8: When the leading coefficient of an axis of the derivative
quadratic satisfies `|a| < 1e-6`, `get_bounding_box` uses the single
linear root `-c/b` (duplicated into both slots of the critical pair);
when additionally `b = 0` (division by zero — `NaN`/`∞` in `f32`, `0` in
the exact model, either way outside the open interval), the strict
`0 < t < 1` filter admits no candidate from that axis, so the candidate
list reduces to the two endpoints plus the other axis's candidates and
the returned rectangle is built from finite evaluations only. -/
theorem degenerate_axis_guard (c : BezierCurve)
    (h1 : |axisA c.p0.x c.p1.x c.p2.x c.p3.x| < 1/1000000)
    (h2 : axisB c.p0.x c.p1.x c.p2.x c.p3.x = 0) :
    xCrit c = (-(axisC c.p0.x c.p1.x c.p2.x c.p3.x) / axisB c.p0.x c.p1.x c.p2.x c.p3.x,
               -(axisC c.p0.x c.p1.x c.p2.x c.p3.x) / axisB c.p0.x c.p1.x c.p2.x c.p3.x)
    ∧ candidatePoints c = [c.evaluate 0, c.evaluate 1]
        ++ (if (yCrit c).1 < 1 ∧ (yCrit c).1 > 0 then [c.evaluate (yCrit c).1] else [])
        ++ (if (yCrit c).2 < 1 ∧ (yCrit c).2 > 0 then [c.evaluate (yCrit c).2] else []) := by
  have hx : xCrit c
      = (-(axisC c.p0.x c.p1.x c.p2.x c.p3.x) / axisB c.p0.x c.p1.x c.p2.x c.p3.x,
         -(axisC c.p0.x c.p1.x c.p2.x c.p3.x) / axisB c.p0.x c.p1.x c.p2.x c.p3.x) := by
    unfold xCrit axisCrit
    rw [if_pos h1]
  refine ⟨hx, ?_⟩
  rw [candidatePoints, hx, h2]
  norm_num

/-- Witness for `degenerate_axis_guard`: a vertical-line curve (all
`x`-coordinates equal) with `a = b = 0` on the `x` axis. -/
theorem degenerate_axis_guard_witness :
    |axisA c8curve.p0.x c8curve.p1.x c8curve.p2.x c8curve.p3.x| < 1/1000000
    ∧ axisB c8curve.p0.x c8curve.p1.x c8curve.p2.x c8curve.p3.x = 0
    ∧ xCrit c8curve
        = (-(axisC c8curve.p0.x c8curve.p1.x c8curve.p2.x c8curve.p3.x)
              / axisB c8curve.p0.x c8curve.p1.x c8curve.p2.x c8curve.p3.x,
           -(axisC c8curve.p0.x c8curve.p1.x c8curve.p2.x c8curve.p3.x)
              / axisB c8curve.p0.x c8curve.p1.x c8curve.p2.x c8curve.p3.x)
    ∧ candidatePoints c8curve = [c8curve.evaluate 0, c8curve.evaluate 1]
        ++ (if (yCrit c8curve).1 < 1 ∧ (yCrit c8curve).1 > 0
            then [c8curve.evaluate (yCrit c8curve).1] else [])
        ++ (if (yCrit c8curve).2 < 1 ∧ (yCrit c8curve).2 > 0
            then [c8curve.evaluate (yCrit c8curve).2] else []) := by
  have h1 : |axisA c8curve.p0.x c8curve.p1.x c8curve.p2.x c8curve.p3.x| < 1/1000000 := by
    norm_num [axisA, c8curve]
  have h2 : axisB c8curve.p0.x c8curve.p1.x c8curve.p2.x c8curve.p3.x = 0 := by
    norm_num [axisB, c8curve]
  have h := degenerate_axis_guard c8curve h1 h2
  exact ⟨h1, h2, h.1, h.2⟩

end Oxide
